import Mathlib

/-!
Verification of the nested-editor adapter (`NestedLexicalEditor.tsx`) and the
top-level wrapper (`standardConfig` / `Wrapper`) of the repository.

The adapter's own logic (clearing/re-importing on prop change, the block/inline
wrapping, the blur export path, the stale-key guards, the backspace shortcut)
is embedded directly from the source.  The tree conversion helpers
(`importMdastTreeToLexical`, `exportLexicalTreeToMdast`) and the markdown
seeding used by the wrapper are repository code that is not part of the
sample, so they are modelled from the specification, as noted on each
definition.
-/

namespace NestedEditor

/-- An mdast content node.  The adapter constructs and destructs `paragraph`
nodes explicitly (synthetic wrapping in inline mode, empty-block substitution),
so that constructor is distinguished; every other node kind is represented
uniformly by its type tag, an optional literal value and its children. -/
inductive Content where
  | paragraph (children : List Content)
  | other (type : String) (value : String) (children : List Content)

mutual

/-- Decidable equality on content nodes (the nested `List` blocks deriving). -/
def contentDecEq : (a b : Content) → Decidable (a = b)
  | .paragraph cs, .paragraph ds =>
    match contentListDecEq cs ds with
    | isTrue h => isTrue (congrArg Content.paragraph h)
    | isFalse h => isFalse (by intro he; injection he; contradiction)
  | .paragraph _, .other _ _ _ => isFalse (fun he => Content.noConfusion he)
  | .other _ _ _, .paragraph _ => isFalse (fun he => Content.noConfusion he)
  | .other t v cs, .other t2 v2 ds =>
    match String.decEq t t2 with
    | isFalse h => isFalse (by intro he; injection he; contradiction)
    | isTrue h1 =>
      match String.decEq v v2 with
      | isFalse h => isFalse (by intro he; injection he; contradiction)
      | isTrue h2 =>
        match contentListDecEq cs ds with
        | isTrue h3 => isTrue (by rw [h1, h2, h3])
        | isFalse h => isFalse (by intro he; injection he; contradiction)

/-- Decidable equality on lists of content nodes. -/
def contentListDecEq : (as bs : List Content) → Decidable (as = bs)
  | [], [] => isTrue rfl
  | [], _ :: _ => isFalse (fun he => List.noConfusion he)
  | _ :: _, [] => isFalse (fun he => List.noConfusion he)
  | a :: as, b :: bs =>
    match contentDecEq a b with
    | isFalse h => isFalse (by intro he; injection he; contradiction)
    | isTrue h1 =>
      match contentListDecEq as bs with
      | isTrue h2 => isTrue (by rw [h1, h2])
      | isFalse h => isFalse (by intro he; injection he; contradiction)

end

instance : DecidableEq Content := contentDecEq

/-- The `children` property read off a node, as JavaScript does on
`mdast.children[0]` at the export site (duck-typed: any node kind). -/
def Content.children : Content → List Content
  | .paragraph cs => cs
  | .other _ _ cs => cs

/-- A text leaf, used to model typing into the child surface. -/
def textNode (t : String) : Content :=
  Content.other "text" t []

/-- The state of the child editing surface: the children of its root node,
expressed in mdast form.  Modelled from the spec: the child surface's content
is always expressible as a contiguous slice of abstract-tree content nodes. -/
structure ChildEditorState where
  root : List Content
deriving DecidableEq

/-- Modelled from the spec: `importMdastTreeToLexical` (repository code not in
the sample) converts the given mdast root's children into editor nodes appended
under the given editor root. -/
def importMdastTreeToLexical (root : ChildEditorState) (mdastRootChildren : List Content) : ChildEditorState :=
  ⟨root.root ++ mdastRootChildren⟩

/-- Modelled from the spec: `exportLexicalTreeToMdast` (repository code not in
the sample) serializes the editor root back into an mdast root; this returns
that root's children. -/
def exportLexicalTreeToMdast (s : ChildEditorState) : List Content :=
  s.root

/-- The mount/update effect of `NestedLexicalEditor` (source lines 146-168):
`$getRoot().clear()`, then `theContent` is the raw content in block mode
(substituting one empty paragraph when empty) or the content wrapped in a
single synthetic paragraph in inline mode, and is imported into the root. -/
def importEffect (block : Bool) (content : List Content) (prior : ChildEditorState) : ChildEditorState :=
  let cleared : ChildEditorState := { prior with root := [] }
  let theContent : List Content :=
    if block then
      if content.length == 0 then [Content.paragraph []] else content
    else
      [Content.paragraph content]
  importMdastTreeToLexical cleared theContent

/-- The content selection of the blur handler (source line 182):
`block ? mdast.children : (mdast.children[0] as Mdast.Paragraph)!.children`.
`none` models the TypeError thrown when `mdast.children[0]` is `undefined`. -/
def blurContent (block : Bool) (mdastChildren : List Content) : Option (List Content) :=
  if block then
    some mdastChildren
  else
    match mdastChildren with
    | [] => none
    | c :: _ => some c.children

/-- The decorator node embedded in the parent surface: a reference key plus the
mdast node it currently carries (its `setMdastNode` setter replaces the latter). -/
structure ParentNode where
  key : Nat
  mdast : Content
deriving DecidableEq

/-- The slice of the parent editing surface the adapter touches: the sibling
list containing the owning decorator node, the current selection (as a node
key), and the tags attached to update transactions by `$addUpdateTag`. -/
structure ParentState where
  nodes : List ParentNode
  selection : Option Nat
  updateTags : List String
deriving DecidableEq

/-- `$getNodeByKey`: locate a node in the parent surface by its key. -/
def getNodeByKey (parent : ParentState) (key : Nat) : Option ParentNode :=
  parent.nodes.find? (fun n => n.key == key)

/-- The key of the next sibling after the node with the given key, as
`selectNext` targets it. -/
def nextSiblingKey (nodes : List ParentNode) (key : Nat) : Option Nat :=
  match nodes with
  | [] => none
  | n :: rest => if n.key == key then rest.head?.map (fun m => m.key) else nextSiblingKey rest key

/-- `updateMdastNode` from `useMdastNodeUpdater` (source lines 54-63): inside a
`parentEditor.update` transaction, add the update tag `history-push`, look the
owning node up by its key, and replace its mdast node only when it is found. -/
def updateMdastNode (parent : ParentState) (key : Nat) (node : Content) : ParentState :=
  let tagged : ParentState := { parent with updateTags := parent.updateTags ++ ["history-push"] }
  match getNodeByKey tagged key with
  | some _ =>
      { tagged with nodes := tagged.nodes.map (fun n => if n.key == key then { n with mdast := node } else n) }
  | none => tagged

/-- The removal operation returned by `useLexicalNodeRemove` (source lines
72-78): `$getNodeByKey(lexicalNode.getKey())`, then `node!.selectNext()` and
`node!.remove()`.  The non-null assertion means a missing node is dereferenced
as `null`, which throws; `Except.error` models that thrown `TypeError`. -/
def removeLexicalNode (parent : ParentState) (key : Nat) : Except String ParentState :=
  match getNodeByKey parent key with
  | none => Except.error "TypeError: Cannot read properties of null (reading selectNext)"
  | some _ =>
      let selected : ParentState := { parent with selection := nextSiblingKey parent.nodes key }
      Except.ok { selected with nodes := selected.nodes.filter (fun n => n.key != key) }

/-- JavaScript `structuredClone` at the value level: a deep copy of an
immutable tree is the tree itself (aliasing is treated in the heap model
below). -/
def structuredClone (c : Content) : Content := c

/-- The observable outcome of the blur handler: the boolean it returns, the
parent surface after the update transaction, and the argument list of the
calls it made to the caller-supplied `getUpdatedMdastNode`. -/
structure BlurResult where
  handled : Bool
  parent : ParentState
  updaterCalls : List (Content × List Content)
deriving DecidableEq

/-- The `BLUR_COMMAND` handler (source lines 172-188): read the editor state,
export it to an mdast root, pick `children` (block) or the wrapper paragraph's
children (inline), and pass `getUpdatedMdastNode(structuredClone(mdastNode),
content)` to `updateMdastNode`; the handler returns `true`.  `Except.error`
models the TypeError thrown when `mdast.children[0]` is `undefined` in inline
mode. -/
def blurHandler (block : Bool) (childState : ChildEditorState) (mdastNode : Content)
    (key : Nat) (getUpdatedMdastNode : Content → List Content → Content)
    (parent : ParentState) : Except String BlurResult :=
  let mdastChildren := exportLexicalTreeToMdast childState
  match blurContent block mdastChildren with
  | none => Except.error "TypeError: Cannot read properties of undefined (reading children)"
  | some content =>
      let newNode := getUpdatedMdastNode (structuredClone mdastNode) content
      Except.ok
        { handled := true
          parent := updateMdastNode parent key newNode
          updaterCalls := [(structuredClone mdastNode, content)] }

/-- The `KEY_BACKSPACE_COMMAND` handler (source lines 189-201): when the root
element's `innerText` is exactly a lone newline, call the removal operation and
return `true`; otherwise return `false` and leave the parent untouched.
`rootElementText` is `none` when `getRootElement()` is `null` (the optional
chain then yields `undefined`, which is not `"\n"`). -/
def backspaceHandler (rootElementText : Option String) (key : Nat) (parent : ParentState) :
    Except String (Bool × ParentState) :=
  if rootElementText = some "\n" then
    (removeLexicalNode parent key).map (fun s => (true, s))
  else
    Except.ok (false, parent)

/-- The value carried by `NestedEditorsContext`: the mdast node of the region
and the reference key of its decorator node (the parent editor and visual
config are opaque to the properties proved here and are elided). -/
structure NestedEditorsContextValue where
  mdastNode : Content
  lexicalNodeKey : Nat
deriving DecidableEq

/-- `useNestedEditorContext` (source lines 40-46): read the React context; a
missing provider yields `undefined`, and the hook then throws.  `Except.error`
models the thrown error. -/
def useNestedEditorContext (ctx : Option NestedEditorsContextValue) :
    Except String NestedEditorsContextValue :=
  match ctx with
  | some context => Except.ok context
  | none => Except.error "useNestedEditor must be used within a NestedEditorsProvider"

/-- What the wrapper's error callback does with an error: logs it to the
console, or (hypothetically) rethrows it.  `standardConfig` only ever builds
the former. -/
inductive ErrorEffect where
  | log (message : String)
  | thrown (message : String)
deriving DecidableEq

/-- The initial-config record built by `standardConfig` in the wrapper
(unnamed source file, lines 26-36), keeping the fields the claims are about:
the namespace string, the markdown seeding the editor state, and the `onError`
callback `error => console.error(error)`. -/
structure LexicalComposerConfig where
  nsName : String
  initialMarkdown : String
  onError : String → ErrorEffect

def standardConfig (markdown : String) : LexicalComposerConfig :=
  { nsName := "MyEditor"
    initialMarkdown := markdown
    onError := fun error => ErrorEffect.log error }

/-- Modelled from the spec: the host engine's construction of the root surface
routes every error raised during construction to the configured `onError`
callback instead of letting it propagate ("Errors during construction are
logged, not thrown").  The resulting effect list records what happens to each
raised error. -/
def constructRootSurface (markdown : String) (raisedErrors : List String) : List ErrorEffect :=
  raisedErrors.map (standardConfig markdown).onError

/-- A heap of mdast nodes, for the aliasing question of `structuredClone`:
addresses below `next` are allocated. -/
structure Heap where
  next : Nat
  cells : Nat → Content

def Heap.get (h : Heap) (a : Nat) : Content := h.cells a

def Heap.set (h : Heap) (a : Nat) (c : Content) : Heap :=
  ⟨h.next, fun b => if b = a then c else h.cells b⟩

/-- `structuredClone` at the heap level: allocate a fresh location holding a
copy of the value at `src`, and return it with its address. -/
def allocClone (h : Heap) (src : Nat) : Heap × Nat :=
  (⟨h.next + 1, fun b => if b = h.next then h.cells src else h.cells b⟩, h.next)

/-- The blur handler's call `getUpdatedMdastNode(structuredClone(mdastNode),
...)` (source line 183), for an updater that mutates its argument in place:
the argument it receives is the clone's address, so the mutation writes to the
clone's cell. -/
def invokeUpdaterOnClone (h : Heap) (orig : Nat) (mutate : Content → Content) : Heap :=
  let p := allocClone h orig
  p.1.set p.2 (mutate (p.1.get p.2))

/-- Models the engine applying a text insertion to the child surface: the text
lands inside the leading paragraph when one exists (the synthetic inline
wrapper or the empty-block substitute), otherwise as a new top-level node. -/
def insertText (s : ChildEditorState) (t : String) : ChildEditorState :=
  match s.root with
  | Content.paragraph cs :: rest => ⟨Content.paragraph (cs ++ [textNode t]) :: rest⟩
  | root => ⟨root ++ [textNode t]⟩

mutual

/-- Whether a text leaf with value `t` occurs anywhere in a content node. -/
def contentHasText (t : String) : Content → Bool
  | .paragraph cs => listHasText t cs
  | .other ty v cs => (ty == "text" && v == t) || listHasText t cs

/-- Whether a text leaf with value `t` occurs anywhere in a content list. -/
def listHasText (t : String) : List Content → Bool
  | [] => false
  | c :: cs => contentHasText t c || listHasText t cs

end

/-- The description of the import step in the specification's words, with the
empty-block substitution spelled out. -/
def importSpecDescription (block : Bool) (content : List Content) : List Content :=
  if block then
    if content = [] then [Content.paragraph []] else content
  else
    [Content.paragraph content]

/-- The dependency array of the import effect (source line 168):
`[editor, block, importVisitors]`.  The input content and the mdast node are
deliberately not dependencies (the eslint-disable comment on line 167), so the
effect cannot observe a change to them.  The editor instance and the visitor
registry are identified by ids. -/
structure ImportEffectDeps where
  editorId : Nat
  block : Bool
  importVisitorsId : Nat
deriving DecidableEq

/-- One re-render of the adapter under React `useEffect` semantics: the import
effect re-runs exactly when its dependency array differs from the previous
render's; only then is the current content read, and the surface cleared and
re-imported. -/
def renderImportStep (prevDeps deps : ImportEffectDeps) (content : List Content)
    (surface : ChildEditorState) : ChildEditorState :=
  if deps = prevDeps then surface else importEffect deps.block content surface

/-- Import-then-export with no intervening edits: run the mount/update import
effect on a fresh surface, then the blur handler's export path. -/
def roundtrip (block : Bool) (content : List Content) : Option (List Content) :=
  blurContent block (exportLexicalTreeToMdast (importEffect block content ⟨[]⟩))

theorem listHasText_append_self (t : String) (l : List Content) :
    listHasText t (l ++ [textNode t]) = true := by
  induction l with
  | nil => simp [listHasText, contentHasText, textNode]
  | cons c cs ih => simp [listHasText, ih]

theorem mem_historyPush_updateTags (parent : ParentState) (key : Nat) (node : Content) :
    "history-push" ∈ (updateMdastNode parent key node).updateTags := by
  cases h : getNodeByKey { parent with updateTags := parent.updateTags ++ ["history-push"] } key <;>
    simp [updateMdastNode, h]

theorem updateMdastNode_stale_nodes (parent : ParentState) (key : Nat) (node : Content)
    (h : getNodeByKey parent key = none) :
    (updateMdastNode parent key node).nodes = parent.nodes := by
  have h2 : getNodeByKey { parent with updateTags := parent.updateTags ++ ["history-push"] } key =
      none := h
  simp [updateMdastNode, h2]

/-- Claim C7: importing an empty content array in block mode substitutes
exactly one empty paragraph node, so the child surface ends up containing
exactly one empty paragraph, whatever it held before. -/
theorem import_empty_block_single_paragraph (prior : ChildEditorState) :
    (importEffect true [] prior).root = [Content.paragraph []] := rfl

/-- Claim C8: reading the nested-editor context outside its provider (the
context value is `undefined`) throws, and with a provider present the hook
returns the context value without throwing. -/
theorem useNestedEditorContext_contract :
    (∃ e, useNestedEditorContext none = Except.error e) ∧
      ∀ v, useNestedEditorContext (some v) = Except.ok v :=
  ⟨⟨_, rfl⟩, fun _ => rfl⟩

/-- Claim C9: every error raised while constructing the wrapper's root surface
is routed to the configured `onError` callback, which logs it; no error
becomes a thrown effect. -/
theorem construction_errors_logged (markdown : String) (raisedErrors : List String) :
    constructRootSurface markdown raisedErrors = raisedErrors.map ErrorEffect.log ∧
      ∀ m, ErrorEffect.thrown m ∉ constructRootSurface markdown raisedErrors := by
  constructor
  · rfl
  · intro m hm
    rcases List.mem_map.mp hm with ⟨x, _, hx⟩
    cases hx

theorem importEffect_eq_specDescription (block : Bool) (content : List Content)
    (prior : ChildEditorState) :
    importEffect block content prior = ⟨importSpecDescription block content⟩ := by
  cases block <;> cases content <;> rfl

/-- Claim C3, counterexample: with the dependency array unchanged, a change to
the input content alone does not clear and re-import — the child surface keeps
showing the stale content — and separately, in block mode an empty content
list is not imported directly (an empty paragraph is substituted). -/
theorem import_effect_claim_cex :
    (renderImportStep ⟨0, true, 0⟩ ⟨0, true, 0⟩ [textNode "b"]
          (importEffect true [textNode "a"] ⟨[]⟩)).root = [textNode "a"] ∧
      ([textNode "a"] : List Content) ≠ [textNode "b"] ∧
      (importEffect true [] ⟨[]⟩).root = [Content.paragraph []] ∧
      ([Content.paragraph []] : List Content) ≠ [] :=
  ⟨rfl, by decide, rfl, by decide⟩

/-- Claim C3, amended: the import effect re-runs exactly when its dependency
array (editor instance, block-mode flag, import-visitor registry) changed — a
change to the input content alone leaves the child surface as it was — and
when it does re-run it clears the surface and re-imports: the raw content list
in block mode, substituting a single empty paragraph when the list is empty,
and the content wrapped in one synthetic paragraph in inline mode. -/
theorem renderImportStep_matches_spec (prevDeps deps : ImportEffectDeps)
    (content : List Content) (surface : ChildEditorState) :
    renderImportStep prevDeps deps content surface =
      if deps = prevDeps then surface
      else ⟨importSpecDescription deps.block content⟩ := by
  by_cases h : deps = prevDeps <;>
    simp [renderImportStep, h, importEffect_eq_specDescription]

/-- Claim C1, counterexample: importing the empty content array in block mode
and exporting it back does not return the empty array (the empty-block
substitution leaves one empty paragraph). -/
theorem roundtrip_block_empty_cex : roundtrip true [] ≠ some [] := by decide

/-- Claim C1, amended: import followed immediately by export returns the
original content array for every content array in inline mode and for every
nonempty content array in block mode (an empty array in block mode comes back
as a single empty paragraph instead). -/
theorem roundtrip_preserves_content (block : Bool) (content : List Content)
    (h : block = true → content ≠ []) :
    roundtrip block content = some content := by
  cases block with
  | false => rfl
  | true =>
      cases content with
      | nil => exact absurd rfl (h rfl)
      | cons c cs => rfl

theorem roundtrip_preserves_content_witness :
    ((true : Bool) = true → ([textNode "a"] : List Content) ≠ []) ∧
      roundtrip true [textNode "a"] = some [textNode "a"] :=
  ⟨by decide, roundtrip_preserves_content true [textNode "a"] (by decide)⟩

/-- Claim C4, counterexample: invoking the removal operation when the owning
node cannot be located by its key is not a silent no-op; dereferencing the
`null` lookup result throws a TypeError. -/
theorem remove_missing_node_cex :
    removeLexicalNode ⟨[], none, []⟩ 0 =
      Except.error "TypeError: Cannot read properties of null (reading selectNext)" := rfl

/-- Claim C4, amended: whenever the owning node cannot be located by its
reference key, the removal operation throws a TypeError (from the non-null
assertion) instead of silently skipping; only the mdast-update path skips
silently. -/
theorem remove_missing_node_throws (parent : ParentState) (key : Nat)
    (h : getNodeByKey parent key = none) :
    removeLexicalNode parent key =
      Except.error "TypeError: Cannot read properties of null (reading selectNext)" := by
  simp [removeLexicalNode, h]

theorem remove_missing_node_throws_witness :
    getNodeByKey ⟨[⟨1, Content.paragraph []⟩], none, []⟩ 0 = none ∧
      removeLexicalNode ⟨[⟨1, Content.paragraph []⟩], none, []⟩ 0 =
        Except.error "TypeError: Cannot read properties of null (reading selectNext)" :=
  ⟨by decide, remove_missing_node_throws ⟨[⟨1, Content.paragraph []⟩], none, []⟩ 0 (by decide)⟩

/-- Claim C5: when the owning node has already been removed from the parent
surface, the blur handler still completes without throwing, and the mdast
update inside `useMdastNodeUpdater` is a silent no-op on the parent's nodes. -/
theorem blur_stale_does_not_throw (block : Bool) (content : List Content)
    (prior : ChildEditorState) (mnode : Content) (key : Nat)
    (upd : Content → List Content → Content) (parent : ParentState)
    (h : getNodeByKey parent key = none) :
    ∃ r, blurHandler block (importEffect block content prior) mnode key upd parent =
        Except.ok r ∧ r.parent.nodes = parent.nodes := by
  cases block with
  | false => exact ⟨_, rfl, updateMdastNode_stale_nodes parent key _ h⟩
  | true =>
      cases content with
      | nil => exact ⟨_, rfl, updateMdastNode_stale_nodes parent key _ h⟩
      | cons c cs => exact ⟨_, rfl, updateMdastNode_stale_nodes parent key _ h⟩

theorem blur_stale_does_not_throw_witness :
    getNodeByKey ⟨[], none, []⟩ 5 = none ∧
      ∃ r, blurHandler true (importEffect true [textNode "x"] ⟨[]⟩) (Content.paragraph []) 5
            (fun n _ => n) ⟨[], none, []⟩ = Except.ok r ∧
          r.parent.nodes = [] :=
  ⟨by decide, blur_stale_does_not_throw true [textNode "x"] ⟨[]⟩ (Content.paragraph []) 5
      (fun n _ => n) ⟨[], none, []⟩ (by decide)⟩

/-- Claim C6: when the child surface's visible text is exactly a lone newline,
the backspace handler removes the owning node, moves the selection to the next
sibling and returns `true`; for any other visible text it returns `false` and
leaves the parent surface untouched. -/
theorem backspace_empty_removes (parent : ParentState) (key : Nat) (n : ParentNode)
    (t : Option String) (hn : getNodeByKey parent key = some n) (ht : t ≠ some "\n") :
    backspaceHandler (some "\n") key parent =
        Except.ok (true,
          ⟨parent.nodes.filter (fun m => m.key != key), nextSiblingKey parent.nodes key,
            parent.updateTags⟩) ∧
      backspaceHandler t key parent = Except.ok (false, parent) := by
  constructor
  · simp [backspaceHandler, removeLexicalNode, hn, Except.map]
  · simp [backspaceHandler, ht]

theorem backspace_empty_removes_witness :
    getNodeByKey ⟨[⟨0, Content.paragraph []⟩, ⟨1, Content.paragraph []⟩], none, []⟩ 0 =
        some ⟨0, Content.paragraph []⟩ ∧
      (some "x" : Option String) ≠ some "\n" ∧
      (backspaceHandler (some "\n") 0
            ⟨[⟨0, Content.paragraph []⟩, ⟨1, Content.paragraph []⟩], none, []⟩ =
          Except.ok (true, ⟨[⟨1, Content.paragraph []⟩], some 1, []⟩) ∧
        backspaceHandler (some "x") 0
            ⟨[⟨0, Content.paragraph []⟩, ⟨1, Content.paragraph []⟩], none, []⟩ =
          Except.ok (false, ⟨[⟨0, Content.paragraph []⟩, ⟨1, Content.paragraph []⟩], none, []⟩)) :=
  ⟨by decide, by decide,
    backspace_empty_removes ⟨[⟨0, Content.paragraph []⟩, ⟨1, Content.paragraph []⟩], none, []⟩ 0
      ⟨0, Content.paragraph []⟩ (some "x") (by decide) (by decide)⟩

/-- Claim C2: blurring the child surface after a text insertion calls the
caller-supplied `getUpdatedMdastNode` exactly once, on content that contains
the inserted text, and the resulting parent-surface update carries the
`history-push` tag. -/
theorem blur_after_insert_invokes_updater_once (block : Bool) (content : List Content)
    (prior : ChildEditorState) (t : String) (mnode : Content) (key : Nat)
    (upd : Content → List Content → Content) (parent : ParentState) :
    ∃ r c,
      blurHandler block (insertText (importEffect block content prior) t) mnode key upd parent =
          Except.ok r ∧
        r.updaterCalls = [(structuredClone mnode, c)] ∧
        listHasText t c = true ∧
        "history-push" ∈ r.parent.updateTags := by
  cases block with
  | false =>
      exact ⟨_, content ++ [textNode t], rfl, rfl, listHasText_append_self t content,
        mem_historyPush_updateTags parent key _⟩
  | true =>
      cases content with
      | nil =>
          refine ⟨_, [Content.paragraph [textNode t]], rfl, rfl, ?_,
            mem_historyPush_updateTags parent key _⟩
          simp [listHasText, contentHasText, textNode]
      | cons c0 rest =>
          cases c0 with
          | paragraph cs =>
              refine ⟨_, Content.paragraph (cs ++ [textNode t]) :: rest, rfl, rfl, ?_,
                mem_historyPush_updateTags parent key _⟩
              simp [listHasText, contentHasText, listHasText_append_self]
          | other ty v cs =>
              exact ⟨_, (Content.other ty v cs :: rest) ++ [textNode t], rfl, rfl,
                listHasText_append_self t _, mem_historyPush_updateTags parent key _⟩

/-- Claim C10: the updater is invoked on a fresh deep copy of the current
mdast node, so it sees the original's value, and however it mutates its
argument the original's cell is unchanged by the export. -/
theorem clone_protects_original (h : Heap) (orig : Nat) (mutate : Content → Content)
    (horig : orig < h.next) :
    (allocClone h orig).1.get (allocClone h orig).2 = h.get orig ∧
      (invokeUpdaterOnClone h orig mutate).get orig = h.get orig := by
  have hne : orig ≠ h.next := Nat.ne_of_lt horig
  constructor
  · simp [allocClone, Heap.get]
  · simp [invokeUpdaterOnClone, allocClone, Heap.set, Heap.get, hne]

theorem clone_protects_original_witness :
    0 < (⟨1, fun _ => Content.paragraph []⟩ : Heap).next ∧
      ((allocClone ⟨1, fun _ => Content.paragraph []⟩ 0).1.get
            (allocClone ⟨1, fun _ => Content.paragraph []⟩ 0).2 =
          Heap.get ⟨1, fun _ => Content.paragraph []⟩ 0 ∧
        (invokeUpdaterOnClone ⟨1, fun _ => Content.paragraph []⟩ 0
              (fun _ => textNode "z")).get 0 =
          Heap.get ⟨1, fun _ => Content.paragraph []⟩ 0) :=
  ⟨by decide, clone_protects_original ⟨1, fun _ => Content.paragraph []⟩ 0
      (fun _ => textNode "z") (by decide)⟩

end NestedEditor
